import Mathlib

set_option autoImplicit false

namespace Lamia

/-! Shallow embedding of the actor-identity-resolution core of the lamia
repository.  Strings are modelled as `List Char`; every definition below
mirrors one operation of `src/lamia/utilities/webfinger.py`,
`src/lamia/middleware/gino.py` or the relationship tables of
`src/lamia/models/features.py`. -/

/-- Python `str.startswith`: `isPre p l = true` iff `p` is an initial segment of `l`. -/
def isPre : List Char → List Char → Bool
  | [], _ => true
  | _ :: _, [] => false
  | a :: as, b :: bs => a == b && isPre as bs

/-- Python `pat in s` (substring test). -/
def hasSub (pat : List Char) : List Char → Bool
  | [] => pat.isEmpty
  | c :: rest => isPre pat (c :: rest) || hasSub pat rest

/-- Scanner for Python `str.replace(pat, '')` with a nonempty `pat`: walks
the string left to right, removing every leftmost, non-overlapping
occurrence of `pat`.  The `skip` counter carries the characters of a
just-matched occurrence still to be consumed, which keeps the recursion
structural. -/
def removeAllGo (pat : List Char) : List Char → Nat → List Char
  | [], _ => []
  | _ :: rest, n + 1 => removeAllGo pat rest n
  | c :: rest, 0 =>
    if isPre pat (c :: rest) = true then removeAllGo pat rest (pat.length - 1)
    else c :: removeAllGo pat rest 0

/-- Python `str.replace(pat, '')` for a nonempty `pat`. -/
def removeAll (pat l : List Char) : List Char := removeAllGo pat l 0

/-- Head-character digit test, used by the model of the regex `:\d+`. -/
def headDigit : List Char → Bool
  | [] => false
  | c :: _ => c.isDigit

/-- Scanner for `re.sub(r':\d+', '', s)` (module-level `port_re` of
webfinger.py): deletes every maximal occurrence of a colon followed by one
or more digits, left to right.  `inRun = true` records that the scanner is
inside the digit run of a match. -/
def portSubGo : List Char → Bool → List Char
  | [], _ => []
  | c :: rest, inRun =>
    if inRun && c.isDigit then portSubGo rest true
    else if c = ':' ∧ headDigit rest = true then portSubGo rest true
    else c :: portSubGo rest false

/-- Python `port_re.sub('', s)` where `port_re = re.compile(r'\:\d+')`. -/
def portSub (l : List Char) : List Char := portSubGo l false

/-- A port-like fragment: a colon immediately followed by a digit.  Spec
language: "contains a port". -/
def hasPort : List Char → Bool
  | [] => false
  | c :: rest => ((c == ':') && headDigit rest) || hasPort rest

/-- Characters allowed in a URL scheme by `urllib.parse` (`scheme_chars`). -/
def schemeChar (c : Char) : Bool :=
  c.isAlpha || c.isDigit || c == '+' || c == '-' || c == '.'

/-- Core of the scheme-splitting step of `urllib.parse.urlsplit`, taking the
text `pre` before the first colon of `url`: if `pre` is a nonempty run of
scheme characters (and, as in the stdlib, the remainder after the colon is
not a bare port number) the scheme marker is removed. -/
def dropSchemeWith (url pre : List Char) : List Char :=
  if pre.length < url.length ∧ pre ≠ [] ∧ pre.all schemeChar = true then
    if url.drop (pre.length + 1) = [] ∨ (url.drop (pre.length + 1)).all Char.isDigit = false then
      url.drop (pre.length + 1)
    else url
  else url

/-- The scheme-splitting step of `urlsplit`; only the remainder after the
scheme is returned because `normalize` reads nothing but `netloc`. -/
def dropScheme (url : List Char) : List Char :=
  dropSchemeWith url (url.takeWhile (fun c => c != ':'))

/-- Python exceptions that the modelled code can raise. -/
inductive PyError where
  | valueError : PyError
  | nameError : String → PyError
deriving DecidableEq, Repr

/-- The `ValueError("Invalid IPv6 URL")` check of `urlsplit` on the parsed
authority. -/
def bracketCheck (nl : List Char) : Except PyError (List Char) :=
  if ('[' ∈ nl ∧ ']' ∉ nl) ∨ (']' ∈ nl ∧ '[' ∉ nl) then .error .valueError
  else .ok nl

/-- Authority extraction of `urlsplit` after scheme removal: a `//`-prefixed
remainder yields the text up to the first `/`, `?` or `#`. -/
def netlocFrom (rest : List Char) : Except PyError (List Char) :=
  if isPre ("//".data) rest = true then
    bracketCheck ((rest.drop 2).takeWhile (fun c => c != '/' && c != '?' && c != '#'))
  else .ok []

/-- `urllib.parse.urlparse(url).netloc`, with `urlsplit`'s `ValueError` for
an authority with unbalanced square brackets. -/
def netlocE (url : List Char) : Except PyError (List Char) :=
  netlocFrom (dropScheme url)

/-- Python `str.split(sep)` for a single-character separator.  The result is
never `[]`, so consing onto its head loses nothing. -/
def splitC (sep : Char) : List Char → List (List Char)
  | [] => [[]]
  | c :: rest =>
    if c = sep then [] :: splitC sep rest
    else (c :: (splitC sep rest).headD []) :: (splitC sep rest).tail

/-- Lines 34-35 of webfinger.py: drop a leading `acct:` marker. -/
def stripAcct (l : List Char) : List Char :=
  if isPre ("acct:".data) l = true then l.drop 5 else l

/-- Lines 40-41 of webfinger.py: when a colon remains outside a `://`
separator, delete every `:digits` segment. -/
def stripPorts (l : List Char) : List Char :=
  if ':' ∈ removeAll ("://".data) l then portSub l else l

/-- The branch structure of `normalize` (webfinger.py lines 43-66), applied
to the already acct- and port-stripped identifier `i` (Python's local
variable `_identifier`). -/
def normCore (i : List Char) : Except PyError (List Char × List Char) :=
  if isPre ("http".data) i = true then
    match netlocE i with
    | .error e => .error e
    | .ok nl =>
      .ok (removeAll ("http://".data) (removeAll ("https://".data) i), "https://".data ++ nl)
  else if '@' ∈ i ∧ hasSub ("/@".data) i = false then
    .ok (i, "https://".data ++ (splitC '@' i).getD 1 [])
  else
    match netlocE ("https://".data ++ i) with
    | .error e => .error e
    | .ok nl => .ok (i, "https://".data ++ nl)

/-- `normalize` from webfinger.py, lines 20-66: returns the pair
`(resource, address)`; `.error .valueError` models an exception escaping
from `urlparse`. -/
def normalizeL (identifier : List Char) : Except PyError (List Char × List Char) :=
  normCore (stripPorts (stripAcct identifier))

/-- String-level wrapper of `normalizeL`. -/
def normalize (s : String) : Except PyError (String × String) :=
  match normalizeL s.data with
  | .error e => .error e
  | .ok p => .ok (String.mk p.1, String.mk p.2)

/-- The request `finger` (webfinger.py lines 69-88) issues: the URL, the two
headers and the query parameter of the `ClientSession.get` call. -/
structure FingerRequest where
  url : List Char
  accept : List Char
  userAgent : List Char
  resource : List Char

/-- Request construction of `finger`: the literal `Accept` and `User-Agent`
headers, `normalize`'s resource id as the `resource` query parameter, and
the discovery URL `address + "/.well-known/webfinger"`.  `version` stands
for `lamia.version.__version__`, which is imported from a module not under
src. -/
def fingerRequest (version : List Char) (identifier : List Char) :
    Except PyError FingerRequest :=
  match normalizeL identifier with
  | .error e => .error e
  | .ok (uid, url) =>
    .ok { url := url ++ "/.well-known/webfinger".data,
          accept := "q=2, application/jrd+json; q=1, application/json".data,
          userAgent := "Lamia/".data ++ version,
          resource := uid }

/-- The names bound at module scope in webfinger.py: its imports (`asyncio`,
`re`, `ClientSession`, `__version__`, `urlparse`) and its top-level
definitions (`port_re`, `normalize`, `finger`).  `json` is not among them. -/
def webfingerGlobals : List String :=
  ["asyncio", "re", "ClientSession", "__version__", "urlparse",
   "port_re", "normalize", "finger"]

/-- Python name resolution at module scope: a `NameError` for unbound names. -/
def lookupGlobal (n : String) : Except PyError Unit :=
  if n ∈ webfingerGlobals then .ok () else .error (.nameError n)

/-- Line 88 of webfinger.py, `return await json.loads(response.read())`:
evaluating the line first resolves the name `json` in module scope, so the
response body is never parsed. -/
def fingerParse (body : String) : Except PyError String :=
  match lookupGlobal "json" with
  | .error e => .error e
  | .ok _ => .ok body

/-- `starlette.exceptions.HTTPException(404)`, as raised by the gino
middleware; only the status code matters here. -/
structure HTTPException where
  status_code : Nat
deriving DecidableEq, Repr

/-- `StarletteModelMixin.get_or_404` (gino.py lines 13-19), as a function of
the awaited result of `cls.get(...)`. -/
def get_or_404 {α : Type} (rv : Option α) : Except HTTPException α :=
  match rv with
  | none => .error ⟨404⟩
  | some v => .ok v

/-- `GinoExecutor.first_or_404` (gino.py lines 22-27), as a function of the
awaited result of `self.first(...)`. -/
def executor_first_or_404 {α : Type} (rv : Option α) : Except HTTPException α :=
  match rv with
  | none => .error ⟨404⟩
  | some v => .ok v

/-- `GinoConnection.first_or_404` (gino.py lines 30-35). -/
def connection_first_or_404 {α : Type} (rv : Option α) : Except HTTPException α :=
  match rv with
  | none => .error ⟨404⟩
  | some v => .ok v

/-- `GinoEngine.first_or_404` (gino.py lines 38-45). -/
def engine_first_or_404 {α : Type} (rv : Option α) : Except HTTPException α :=
  match rv with
  | none => .error ⟨404⟩
  | some v => .ok v

/-! Relationship-ledger model.  The `Follow` and `Block` tables are declared
in `src/lamia/models/features.py` (lines 400-429 and 156-178), but the
operations of spec §4.3 that mutate them are not under src; they are
modelled from the spec below. -/

abbrev ActorId := Nat
abbrev AccountId := Nat

/-- The mutable state columns of a `Follow` row (features.py lines 420-425). -/
structure FollowEdge where
  pending_review : Bool
  approved : Bool
  blocked : Bool
deriving DecidableEq, Repr

/-- `PENDING` (spec §4.3): `pendingReview=true, approved=false, blocked=false`. -/
def pendingEdge : FollowEdge := ⟨true, false, false⟩

/-- `APPROVED` (spec §4.3): `pendingReview=false, approved=true`, not blocked. -/
def approvedEdge : FollowEdge := ⟨false, true, false⟩

/-- `BLOCKED`, terminal (spec §4.3): `blocked=true` with `approved=false`
(the state a block forces, spec §8). -/
def blockedEdge : FollowEdge := ⟨false, false, true⟩

/-- Ownership context: which actors an account owns (via its Identity/Blog
rows), the owning account of an actor, and the account's
`approval_for_follows` column (features.py line 41). -/
structure Env where
  owns : AccountId → ActorId → Bool
  actorAccount : ActorId → AccountId
  approvalForFollows : AccountId → Bool

/-- Ledger state: at most one `FollowEdge` per ordered actor pair (spec §3
uniqueness invariant) and the set of account-scoped `BlockEdge`s. -/
structure Ledger where
  follows : ActorId × ActorId → Option FollowEdge
  blocks : AccountId × ActorId → Bool

/-- The ledger with no edges. -/
def emptyLedger : Ledger := ⟨fun _ => none, fun _ => false⟩

/-- Pointwise update of the follow table at one ordered pair (the
single-row-atomic upsert/delete of spec §4.3). -/
def setFollow (s : Ledger) (key : ActorId × ActorId) (v : Option FollowEdge) : Ledger :=
  { s with follows := fun p => if p = key then v else s.follows p }

/-- A precondition failure, spec §7 `RelationshipConflict`. -/
inductive RelationshipConflict where
  | conflict : RelationshipConflict

/-- Modelled from the spec: `requestFollow(src,tgt)` of §4.3 — the operation
itself is not under src (only the `Follow` table is).  Precondition: no
existing edge; a blocked edge is terminal (features.py line 424: "all future
requests will also be blocked").  Effect: create a `PENDING` edge, or an
`APPROVED` one directly when the target's account has
`approval_for_follows = false`. -/
def requestFollow (env : Env) (src tgt : ActorId) (s : Ledger) :
    Except RelationshipConflict Ledger :=
  match s.follows (src, tgt) with
  | some _ => .error .conflict
  | none =>
    .ok (setFollow s (src, tgt)
      (some (if env.approvalForFollows (env.actorAccount tgt) then pendingEdge
        else approvedEdge)))

/-- Modelled from the spec: `approveFollow(src,tgt)` of §4.3 — not under
src.  Precondition: the edge exists and is `PENDING`; effect: `APPROVED`. -/
def approveFollow (src tgt : ActorId) (s : Ledger) :
    Except RelationshipConflict Ledger :=
  match s.follows (src, tgt) with
  | some e =>
    if e = pendingEdge then .ok (setFollow s (src, tgt) (some approvedEdge))
    else .error .conflict
  | none => .error .conflict

/-- Modelled from the spec: `rejectFollow(src,tgt)` of §4.3 — not under src.
Precondition: the edge exists and is `PENDING`; effect: edge removed. -/
def rejectFollow (src tgt : ActorId) (s : Ledger) :
    Except RelationshipConflict Ledger :=
  match s.follows (src, tgt) with
  | some e =>
    if e = pendingEdge then .ok (setFollow s (src, tgt) none)
    else .error .conflict
  | none => .error .conflict

/-- Modelled from the spec: `unfollow(src,tgt)` of §4.3 — not under src.
Precondition: the edge exists and is `APPROVED`; effect: edge removed. -/
def unfollow (src tgt : ActorId) (s : Ledger) :
    Except RelationshipConflict Ledger :=
  match s.follows (src, tgt) with
  | some e =>
    if e = approvedEdge then .ok (setFollow s (src, tgt) none)
    else .error .conflict
  | none => .error .conflict

/-- Modelled from the spec: `blockViaAccount(account,target)` of §4.3 and
invariant (3) of §3 — not under src (only the `Block` table is).  In one
step (atomically with the `BlockEdge` creation) it forces every existing
follow edge between an actor owned by the account and the target, in either
direction, into the `BLOCKED` state (`blocked=true, approved=false`);
re-applying it is a no-op. -/
def blockViaAccount (env : Env) (acct : AccountId) (tgt : ActorId) (s : Ledger) : Ledger :=
  { follows := fun p =>
      match s.follows p with
      | none => none
      | some e =>
        if (env.owns acct p.1 && decide (p.2 = tgt)) ||
            (env.owns acct p.2 && decide (p.1 = tgt)) then some blockedEdge
        else some e,
    blocks := fun b => decide (b = (acct, tgt)) || s.blocks b }

/-- One ledger operation of spec §4.3. -/
inductive LedgerOp where
  | requestFollow (src tgt : ActorId)
  | approveFollow (src tgt : ActorId)
  | rejectFollow (src tgt : ActorId)
  | unfollow (src tgt : ActorId)
  | blockViaAccount (acct : AccountId) (tgt : ActorId)

/-- Modelled from the spec: applying one operation; a `RelationshipConflict`
is surfaced to the caller and leaves the state unchanged (spec §7). -/
def applyOp (env : Env) (op : LedgerOp) (s : Ledger) : Ledger :=
  match op with
  | .requestFollow src tgt =>
    match requestFollow env src tgt s with
    | .ok s' => s'
    | .error _ => s
  | .approveFollow src tgt =>
    match approveFollow src tgt s with
    | .ok s' => s'
    | .error _ => s
  | .rejectFollow src tgt =>
    match rejectFollow src tgt s with
    | .ok s' => s'
    | .error _ => s
  | .unfollow src tgt =>
    match unfollow src tgt s with
    | .ok s' => s'
    | .error _ => s
  | .blockViaAccount acct tgt => blockViaAccount env acct tgt s

/-- Modelled from the spec: a sequence of ledger operations. -/
def runOps (env : Env) (ops : List LedgerOp) (s : Ledger) : Ledger :=
  ops.foldl (fun st op => applyOp env op st) s

/-- Invariant (2) of spec §3: no edge is simultaneously approved and blocked. -/
def noApprovedBlocked (s : Ledger) : Prop :=
  ∀ p e, s.follows p = some e → ¬(e.approved = true ∧ e.blocked = true)

/-- A concrete ownership context used to evaluate the ledger model: account 1
owns actor 10. -/
def sampleEnv : Env := ⟨fun c x => c == 1 && x == 10, fun _ => 1, fun _ => true⟩

/-- A concrete ledger used to evaluate the model: one approved follow from
actor 10 to actor 20. -/
def sampleLedger : Ledger :=
  ⟨fun p => if p = (10, 20) then some approvedEdge else none, fun _ => false⟩

/-! Helper lemmas about the string primitives. -/

theorem isPre_append_self (p t : List Char) : isPre p (p ++ t) = true := by
  induction p with
  | nil => rfl
  | cons a as ih => simp [isPre, ih]

theorem mem_of_drop {c : Char} {l : List Char} {n : Nat} (h : c ∈ l.drop n) : c ∈ l := by
  induction n generalizing l with
  | zero => simpa using h
  | succ n ih =>
    cases l with
    | nil => simpa using h
    | cons a rest => exact List.mem_cons_of_mem a (ih (by simpa using h))

theorem mem_of_takeWhile {c : Char} {p : Char → Bool} {l : List Char}
    (h : c ∈ l.takeWhile p) : c ∈ l := by
  induction l with
  | nil => simpa using h
  | cons a rest ih =>
    rw [List.takeWhile_cons] at h
    cases hpa : p a with
    | false => simp [hpa] at h
    | true =>
      rw [hpa] at h
      simp only [if_true] at h
      rcases List.mem_cons.mp h with h | h
      · exact h ▸ List.mem_cons_self a rest
      · exact List.mem_cons_of_mem a (ih h)

theorem mem_of_dropWhile {c : Char} {p : Char → Bool} {l : List Char}
    (h : c ∈ l.dropWhile p) : c ∈ l := by
  induction l with
  | nil => simpa using h
  | cons a rest ih =>
    rw [List.dropWhile_cons] at h
    cases hpa : p a with
    | false => simpa [hpa] using h
    | true =>
      rw [hpa] at h
      simp only [if_true] at h
      exact List.mem_cons_of_mem a (ih h)

theorem mem_of_portSubGo {c : Char} :
    ∀ {l : List Char} {b : Bool}, c ∈ portSubGo l b → c ∈ l := by
  intro l
  induction l with
  | nil => intro b h; simpa [portSubGo] using h
  | cons d rest ih =>
    intro b h
    rw [portSubGo] at h
    split at h
    · exact List.mem_cons_of_mem d (ih h)
    · split at h
      · exact List.mem_cons_of_mem d (ih h)
      · rcases List.mem_cons.mp h with h | h
        · exact h ▸ List.mem_cons_self d rest
        · exact List.mem_cons_of_mem d (ih h)

theorem mem_of_portSub {c : Char} {l : List Char} (h : c ∈ portSub l) : c ∈ l :=
  mem_of_portSubGo h

theorem mem_of_removeAllGo {c : Char} {pat : List Char} :
    ∀ {l : List Char} {n : Nat}, c ∈ removeAllGo pat l n → c ∈ l := by
  intro l
  induction l with
  | nil => intro n h; cases n <;> simpa [removeAllGo] using h
  | cons d rest ih =>
    intro n h
    match n with
    | m + 1 =>
      rw [removeAllGo] at h
      exact List.mem_cons_of_mem d (ih h)
    | 0 =>
      rw [removeAllGo] at h
      split at h
      · exact List.mem_cons_of_mem d (ih h)
      · rcases List.mem_cons.mp h with h | h
        · exact h ▸ List.mem_cons_self d rest
        · exact List.mem_cons_of_mem d (ih h)

theorem mem_of_removeAll {c : Char} {pat l : List Char} (h : c ∈ removeAll pat l) : c ∈ l :=
  mem_of_removeAllGo h

theorem mem_of_dropScheme {c : Char} {url : List Char} (h : c ∈ dropScheme url) : c ∈ url := by
  unfold dropScheme dropSchemeWith at h
  split at h
  · split at h
    · exact mem_of_drop h
    · exact h
  · exact h

theorem netlocE_ok (url : List Char) (h1 : '[' ∉ url) (h2 : ']' ∉ url) :
    ∃ nl, netlocE url = .ok nl := by
  unfold netlocE netlocFrom
  split
  · unfold bracketCheck
    rw [if_neg]
    · exact ⟨_, rfl⟩
    · rintro (⟨hm, _⟩ | ⟨hm, _⟩)
      · exact h1 (mem_of_dropScheme (mem_of_drop (mem_of_takeWhile hm)))
      · exact h2 (mem_of_dropScheme (mem_of_drop (mem_of_takeWhile hm)))
  · exact ⟨_, rfl⟩

theorem removeAllGo_skip (pat : List Char) :
    ∀ (l : List Char) (n : Nat), removeAllGo pat l n = removeAllGo pat (l.drop n) 0 := by
  intro l
  induction l with
  | nil => intro n; cases n <;> simp [removeAllGo]
  | cons c rest ih =>
    intro n
    cases n with
    | zero => rfl
    | succ m =>
      simp only [removeAllGo, List.drop_succ_cons]
      exact ih m

theorem removeAll_cons_miss {pat : List Char} {c : Char} {l : List Char}
    (h : isPre pat (c :: l) = false) : removeAll pat (c :: l) = c :: removeAll pat l := by
  unfold removeAll
  simp only [removeAllGo]
  rw [if_neg (by simp [h])]

theorem removeAll_cons_hit {pat : List Char} {c : Char} {l : List Char}
    (h : isPre pat (c :: l) = true) :
    removeAll pat (c :: l) = removeAll pat (l.drop (pat.length - 1)) := by
  unfold removeAll
  simp only [removeAllGo]
  rw [if_pos h, removeAllGo_skip]

theorem removeAll_eq_self {pat : List Char} :
    ∀ {l : List Char}, hasSub pat l = false → removeAll pat l = l := by
  intro l
  induction l with
  | nil => intro _; rfl
  | cons c rest ih =>
    intro h
    rw [hasSub] at h
    have h1 : isPre pat (c :: rest) = false := by
      cases hp : isPre pat (c :: rest)
      · rfl
      · rw [hp] at h; simp at h
    have h2 : hasSub pat rest = false := by
      cases hp : hasSub pat rest
      · rfl
      · rw [hp] at h; simp at h
    rw [removeAll_cons_miss h1, ih h2]

theorem splitC_append (sep : Char) (u v : List Char) (hu : sep ∉ u) :
    splitC sep (u ++ sep :: v) = u :: splitC sep v := by
  induction u with
  | nil =>
    simp only [List.nil_append]
    rw [splitC, if_pos rfl]
  | cons c u' ih =>
    have hc : c ≠ sep := fun he => hu (he ▸ List.mem_cons_self c u')
    have hu' : sep ∉ u' := fun hm => hu (List.mem_cons_of_mem c hm)
    simp only [List.cons_append]
    rw [splitC, if_neg hc, ih hu']
    rfl

theorem splitC_no_sep (sep : Char) (l : List Char) (h : sep ∉ l) : splitC sep l = [l] := by
  induction l with
  | nil => rfl
  | cons c rest ih =>
    have hc : c ≠ sep := fun he => h (he ▸ List.mem_cons_self c rest)
    have h' : sep ∉ rest := fun hm => h (List.mem_cons_of_mem c hm)
    rw [splitC, if_neg hc, ih h']
    rfl

theorem splitC_head (sep : Char) (v : List Char) :
    ∃ t, splitC sep v = (v.takeWhile (fun c => c != sep)) :: t := by
  induction v with
  | nil => exact ⟨[], rfl⟩
  | cons c rest ih =>
    obtain ⟨t, ht⟩ := ih
    by_cases hc : c = sep
    · subst hc
      exact ⟨splitC c rest, by rw [splitC, if_pos rfl]; simp [List.takeWhile_cons]⟩
    · exact ⟨t, by rw [splitC, if_neg hc, ht]; simp [List.takeWhile_cons, hc]⟩

theorem stripAcct_acct (s : List Char) : stripAcct ("acct:".data ++ s) = s := rfl

theorem stripPorts_no_colon {l : List Char} (h : ':' ∉ removeAll ("://".data) l) :
    stripPorts l = l := by
  unfold stripPorts
  rw [if_neg h]

theorem stripPorts_colon {l : List Char} (h : ':' ∈ removeAll ("://".data) l) :
    stripPorts l = portSub l := by
  unfold stripPorts
  rw [if_pos h]

theorem mem_of_stripPrep {c : Char} {l : List Char}
    (h : c ∈ stripPorts (stripAcct l)) : c ∈ l := by
  have h' : c ∈ stripAcct l := by
    unfold stripPorts at h
    split at h
    · exact mem_of_portSub h
    · exact h
  unfold stripAcct at h'
  split at h'
  · exact mem_of_drop h'
  · exact h'

/-- C6, counterexample: contrary to the claim, `normalize` does not fail on
the empty identifier; it returns the pair `("", "https://")`. -/
theorem c6_counterexample : normalize "" = .ok ("", "https://") := rfl

/-- C6 (amended): no `MalformedIdentifier` exception exists in the code and
`normalize` never fails on empty or host-less input: on every identifier
free of square brackets it returns a resource/address pair, the only
possible failure being `urlparse`'s `ValueError` for an authority with
unbalanced square brackets. -/
theorem normCore_ok (i : List Char) (h1 : '[' ∉ i) (h2 : ']' ∉ i) :
    ∃ p, normCore i = .ok p := by
  unfold normCore
  split
  · obtain ⟨nl, hnl⟩ := netlocE_ok i h1 h2
    rw [hnl]
    exact ⟨_, rfl⟩
  · split
    · exact ⟨_, rfl⟩
    · have hb1 : '[' ∉ "https://".data ++ i := by
        intro hc
        rcases List.mem_append.mp hc with hc | hc
        · revert hc; decide
        · exact h1 hc
      have hb2 : ']' ∉ "https://".data ++ i := by
        intro hc
        rcases List.mem_append.mp hc with hc | hc
        · revert hc; decide
        · exact h2 hc
      obtain ⟨nl, hnl⟩ := netlocE_ok _ hb1 hb2
      rw [hnl]
      exact ⟨_, rfl⟩

theorem c6_never_malformed (l : List Char) (h1 : '[' ∉ l) (h2 : ']' ∉ l) :
    ∃ p, normalizeL l = .ok p := by
  unfold normalizeL
  exact normCore_ok (stripPorts (stripAcct l))
    (fun hc => h1 (mem_of_stripPrep hc)) (fun hc => h2 (mem_of_stripPrep hc))

/-- C6, witness: the amended theorem applied to the empty identifier, whose
hypotheses hold trivially. -/
theorem c6_witness :
    ( '[' ∉ ("".data) ∧ ']' ∉ ("".data)) ∧ ∃ p, normalizeL ("".data) = .ok p :=
  ⟨by decide, c6_never_malformed ("".data) (by decide) (by decide)⟩

/-- C1, counterexample: two email-style identifiers of the form
`acct:user@host` on which `normalize` does not return
`(user@host, https://host)`: a user part beginning with `http` is routed
into the URL branch and yields discovery base `"https://"`, and a host
carrying a port has the port stripped from the returned resource id. -/
theorem c1_counterexample :
    (normalize "acct:httpfan@lamia.social" = .ok ("httpfan@lamia.social", "https://") ∧
      ("https://" : String) ≠ "https://lamia.social") ∧
    (normalize "acct:lamia@lamia.social:8080" =
        .ok ("lamia@lamia.social", "https://lamia.social") ∧
      ("lamia@lamia.social" : String) ≠ "lamia@lamia.social:8080") :=
  ⟨⟨rfl, by decide⟩, ⟨rfl, by decide⟩⟩

/-- C4, counterexample: for an identifier starting with an HTTP(S) scheme,
the resource id is not the input with its leading scheme stripped: the code
removes every occurrence of `https://`/`http://`, also inside a query. -/
theorem c4_counterexample :
    normalize "https://a.example/p?u=https://b.example/" =
      .ok ("a.example/p?u=b.example/", "https://a.example") ∧
    ("a.example/p?u=b.example/" : String) ≠ "a.example/p?u=https://b.example/" :=
  ⟨rfl, by decide⟩

/-- C5, counterexample: with more than one `@` the discovery base is built
from the segment between the first and the second `@`, not from the entire
part after the first `@`. -/
theorem c5_counterexample :
    normalize "a@b@c" = .ok ("a@b@c", "https://b") ∧
    ("https://b" : String) ≠ "https://b@c" :=
  ⟨rfl, by decide⟩

theorem takeWhile_append_all {p : Char → Bool} {u : List Char}
    (hu : ∀ c ∈ u, p c = true) (v : List Char) :
    (u ++ v).takeWhile p = u ++ v.takeWhile p := by
  induction u with
  | nil => simp
  | cons c u' ih =>
    have hc : p c = true := hu c (List.mem_cons_self c u')
    have hu' : ∀ d ∈ u', p d = true := fun d hd => hu d (List.mem_cons_of_mem c hd)
    simp only [List.cons_append, List.takeWhile_cons, hc, if_true, ih hu']

theorem dropScheme_https (t : List Char) :
    dropScheme ("https://".data ++ t) = '/' :: '/' :: t := by
  show dropSchemeWith ("https://".data ++ t) ("https".data) = '/' :: '/' :: t
  unfold dropSchemeWith
  have hd : (List.drop (("https".data : List Char).length + 1) ("https://".data ++ t)).all
      Char.isDigit = false := rfl
  rw [if_pos, if_pos (Or.inr hd)]
  · rfl
  refine ⟨by simp, by decide, by decide⟩

theorem dropScheme_http (t : List Char) :
    dropScheme ("http://".data ++ t) = '/' :: '/' :: t := by
  show dropSchemeWith ("http://".data ++ t) ("http".data) = '/' :: '/' :: t
  unfold dropSchemeWith
  have hd : (List.drop (("http".data : List Char).length + 1) ("http://".data ++ t)).all
      Char.isDigit = false := rfl
  rw [if_pos, if_pos (Or.inr hd)]
  · rfl
  refine ⟨by simp, by decide, by decide⟩

theorem hasPort_tail {c : Char} {l : List Char} (h : hasPort (c :: l) = false) :
    hasPort l = false := by
  rw [hasPort] at h
  cases hp : hasPort l
  · rfl
  · rw [hp] at h; simp at h

theorem headDigit_portSubGo_true : ∀ l : List Char, headDigit (portSubGo l true) = false := by
  intro l
  induction l with
  | nil => rfl
  | cons c rest ih =>
    rw [portSubGo]
    split
    · exact ih
    · split
      · exact ih
      · rename_i h1 h2
        rw [headDigit]
        cases hd : c.isDigit
        · rfl
        · exact absurd (by simp [hd]) h1

theorem headDigit_portSubGo_false {l : List Char} (h : headDigit l = false) :
    headDigit (portSubGo l false) = false := by
  cases l with
  | nil => rfl
  | cons c rest =>
    rw [portSubGo]
    split
    · exact headDigit_portSubGo_true rest
    · split
      · exact headDigit_portSubGo_true rest
      · rw [headDigit] at h ⊢
        exact h

theorem hasPort_portSubGo : ∀ (l : List Char) (b : Bool), hasPort (portSubGo l b) = false := by
  intro l
  induction l with
  | nil => intro b; rfl
  | cons c rest ih =>
    intro b
    rw [portSubGo]
    split
    · exact ih true
    · split
      · exact ih true
      · rename_i h1 h2
        rw [hasPort]
        have hrest := ih false
        cases hc : (c == ':')
        · simp [hrest]
        · have hcc : c = ':' := by simpa using hc
          have hdr : headDigit rest = false := by
            cases hd : headDigit rest
            · rfl
            · exact absurd ⟨hcc, hd⟩ h2
          simp [hrest, headDigit_portSubGo_false hdr]

theorem hasPort_portSub (l : List Char) : hasPort (portSub l) = false :=
  hasPort_portSubGo l false

theorem hasPort_drop : ∀ {l : List Char}, hasPort l = false →
    ∀ n, hasPort (l.drop n) = false := by
  intro l
  induction l with
  | nil => intro _ n; rw [List.drop_nil]; rfl
  | cons c rest ih =>
    intro h n
    cases n with
    | zero => exact h
    | succ m =>
      rw [List.drop_succ_cons]
      exact ih (hasPort_tail h) m

theorem headDigit_takeWhile_false {p : Char → Bool} {l : List Char} (h : headDigit l = false) :
    headDigit (l.takeWhile p) = false := by
  cases l with
  | nil => rfl
  | cons c rest =>
    rw [headDigit] at h
    rw [List.takeWhile_cons]
    cases hp : p c
    · simp [headDigit]
    · simp [headDigit, h]

theorem hasPort_takeWhile {p : Char → Bool} :
    ∀ {l : List Char}, hasPort l = false → hasPort (l.takeWhile p) = false := by
  intro l
  induction l with
  | nil => intro _; rfl
  | cons c rest ih =>
    intro h
    have h2 : hasPort rest = false := hasPort_tail h
    rw [List.takeWhile_cons]
    cases hp : p c
    · simp [hasPort]
    · simp only [if_true]
      rw [hasPort]
      cases hc : (c == ':')
      · simp [ih h2]
      · have hdr : headDigit rest = false := by
          rw [hasPort, hc] at h
          cases hd : headDigit rest
          · rfl
          · rw [hd] at h; simp at h
        simp [ih h2, headDigit_takeWhile_false hdr]

theorem hasPort_dropScheme {url : List Char} (h : hasPort url = false) :
    hasPort (dropScheme url) = false := by
  unfold dropScheme dropSchemeWith
  split
  · split
    · exact hasPort_drop h _
    · exact h
  · exact h

theorem hasPort_https (x : List Char) : hasPort ("https://".data ++ x) = hasPort x := rfl

theorem hasPort_netlocE {url nl : List Char} (hu : hasPort url = false)
    (h : netlocE url = .ok nl) : hasPort nl = false := by
  unfold netlocE netlocFrom at h
  split at h
  · unfold bracketCheck at h
    split at h
    · exact absurd h (by simp)
    · injection h with h2
      subst h2
      exact hasPort_takeWhile (hasPort_drop (hasPort_dropScheme hu) 2)
  · injection h with h2
    rw [← h2]
    rfl

theorem mem_tail_subset {α : Type} {e : α} {l : List α} (h : e ∈ l.tail) : e ∈ l := by
  cases l with
  | nil => simpa using h
  | cons a t => exact List.mem_cons_of_mem a h

theorem hasPort_splitC (sep : Char) :
    ∀ {l : List Char}, hasPort l = false → ∀ e ∈ splitC sep l, hasPort e = false := by
  intro l
  induction l with
  | nil =>
    intro _ e he
    simp [splitC] at he
    subst he
    rfl
  | cons c rest ih =>
    intro h e he
    have h2 : hasPort rest = false := hasPort_tail h
    rw [splitC] at he
    by_cases hc : c = sep
    · rw [if_pos hc] at he
      rcases List.mem_cons.mp he with rfl | he
      · rfl
      · exact ih h2 e he
    · rw [if_neg hc] at he
      rcases List.mem_cons.mp he with rfl | he
      · obtain ⟨t, ht⟩ := splitC_head sep rest
        rw [ht, hasPort]
        have hhd : hasPort (rest.takeWhile (fun d => d != sep)) = false :=
          hasPort_takeWhile h2
        simp only [List.headD_cons]
        cases hcq : (c == ':')
        · simp [hhd]
        · have hdr : headDigit rest = false := by
            rw [hasPort, hcq] at h
            cases hd : headDigit rest
            · rfl
            · rw [hd] at h; simp at h
          simp [hhd, headDigit_takeWhile_false hdr]
      · exact ih h2 e (mem_tail_subset he)

theorem getD_one_cases (xs : List (List Char)) :
    xs.getD 1 [] = [] ∨ xs.getD 1 [] ∈ xs := by
  match xs with
  | [] => exact Or.inl rfl
  | [a] => exact Or.inl rfl
  | a :: b :: t => exact Or.inr (List.mem_cons_of_mem a (List.mem_cons_self b t))

/-- C4 (amended): for an identifier `scheme://host/path` (scheme `http` or
`https`; host nonempty and free of `/?#:@[]` characters; path empty or
slash-led and colon-free; no further occurrence of a scheme marker in
host/path), `normalize` returns the scheme-stripped input as resource id and
exactly `https://host` — no path or query — as discovery base.  In general
the resource id has every occurrence of `http://`/`https://` removed, not
only the leading scheme, and `:digits` segments are removed from both
components, which is what the counterexample exhibits. -/
theorem c4_http_branch (sch host path : List Char)
    (hsch : sch = "http://".data ∨ sch = "https://".data)
    (hhost : host ≠ [])
    (hhc : ∀ c ∈ host, c ≠ '/' ∧ c ≠ '?' ∧ c ≠ '#' ∧ c ≠ ':' ∧ c ≠ '@' ∧ c ≠ '[' ∧ c ≠ ']')
    (hpath : path = [] ∨ ∃ p', path = '/' :: p')
    (hpc : ':' ∉ path)
    (hs1 : hasSub ("https://".data) (host ++ path) = false)
    (hs2 : hasSub ("http://".data) (host ++ path) = false) :
    normalizeL (sch ++ (host ++ path)) = .ok (host ++ path, "https://".data ++ host) := by
  have hct : ':' ∉ host ++ path := by
    intro hc
    rcases List.mem_append.mp hc with hc | hc
    · exact (hhc ':' hc).2.2.2.1 rfl
    · exact hpc hc
  have htw : (host ++ path).takeWhile (fun c => c != '/' && c != '?' && c != '#') = host := by
    have hall : ∀ c ∈ host, (c != '/' && c != '?' && c != '#') = true := by
      intro c hc
      obtain ⟨n1, n2, n3, _⟩ := hhc c hc
      simp [n1, n2, n3]
    rw [takeWhile_append_all hall path]
    rcases hpath with rfl | ⟨p', rfl⟩ <;> simp [List.takeWhile_cons]
  have hbr : bracketCheck host = .ok host := by
    have hnc : ¬(('[' ∈ host ∧ ']' ∉ host) ∨ (']' ∈ host ∧ '[' ∉ host)) := by
      rintro (⟨hm, _⟩ | ⟨hm, _⟩)
      · exact (hhc '[' hm).2.2.2.2.2.1 rfl
      · exact (hhc ']' hm).2.2.2.2.2.2 rfl
    unfold bracketCheck
    rw [if_neg hnc]
  rcases hsch with rfl | rfl
  · have hport : ':' ∉ removeAll ("://".data) ("http://".data ++ (host ++ path)) := by
      intro hc
      have he : removeAll ("://".data) ("http://".data ++ (host ++ path)) =
          'h' :: 't' :: 't' :: 'p' :: removeAll ("://".data) (host ++ path) := rfl
      rw [he] at hc
      simp only [List.mem_cons] at hc
      rcases hc with h | h | h | h | h
      · exact absurd h (by decide)
      · exact absurd h (by decide)
      · exact absurd h (by decide)
      · exact absurd h (by decide)
      · exact hct (mem_of_removeAll h)
    have hnet : netlocE ("http://".data ++ (host ++ path)) = .ok host := by
      unfold netlocE
      rw [dropScheme_http]
      unfold netlocFrom
      rw [if_pos (show isPre ("//".data) ('/' :: '/' :: (host ++ path)) = true from rfl)]
      show bracketCheck
        ((host ++ path).takeWhile (fun c => c != '/' && c != '?' && c != '#')) = _
      rw [htw]
      exact hbr
    have hr1 : removeAll ("https://".data) ("http://".data ++ (host ++ path)) =
        "http://".data ++ (host ++ path) := by
      have he : removeAll ("https://".data) ("http://".data ++ (host ++ path)) =
          'h' :: 't' :: 't' :: 'p' :: ':' :: '/' :: '/' ::
            removeAll ("https://".data) (host ++ path) := rfl
      rw [he, removeAll_eq_self hs1]
      rfl
    have hr2 : removeAll ("http://".data) ("http://".data ++ (host ++ path)) =
        host ++ path := by
      have he : removeAll ("http://".data) ("http://".data ++ (host ++ path)) =
          removeAll ("http://".data) (host ++ path) := rfl
      rw [he, removeAll_eq_self hs2]
    unfold normalizeL
    show normCore (stripPorts ("http://".data ++ (host ++ path))) = _
    rw [stripPorts_no_colon hport]
    unfold normCore
    rw [if_pos (show isPre ("http".data) ("http://".data ++ (host ++ path)) = true from rfl)]
    simp only [hnet, hr1, hr2]
  · have hport : ':' ∉ removeAll ("://".data) ("https://".data ++ (host ++ path)) := by
      intro hc
      have he : removeAll ("://".data) ("https://".data ++ (host ++ path)) =
          'h' :: 't' :: 't' :: 'p' :: 's' :: removeAll ("://".data) (host ++ path) := rfl
      rw [he] at hc
      simp only [List.mem_cons] at hc
      rcases hc with h | h | h | h | h | h
      · exact absurd h (by decide)
      · exact absurd h (by decide)
      · exact absurd h (by decide)
      · exact absurd h (by decide)
      · exact absurd h (by decide)
      · exact hct (mem_of_removeAll h)
    have hnet : netlocE ("https://".data ++ (host ++ path)) = .ok host := by
      unfold netlocE
      rw [dropScheme_https]
      unfold netlocFrom
      rw [if_pos (show isPre ("//".data) ('/' :: '/' :: (host ++ path)) = true from rfl)]
      show bracketCheck
        ((host ++ path).takeWhile (fun c => c != '/' && c != '?' && c != '#')) = _
      rw [htw]
      exact hbr
    have hr1 : removeAll ("https://".data) ("https://".data ++ (host ++ path)) =
        host ++ path := by
      have he : removeAll ("https://".data) ("https://".data ++ (host ++ path)) =
          removeAll ("https://".data) (host ++ path) := rfl
      rw [he, removeAll_eq_self hs1]
    have hr2 : removeAll ("http://".data) (host ++ path) = host ++ path :=
      removeAll_eq_self hs2
    unfold normalizeL
    show normCore (stripPorts ("https://".data ++ (host ++ path))) = _
    rw [stripPorts_no_colon hport]
    unfold normCore
    rw [if_pos (show isPre ("http".data) ("https://".data ++ (host ++ path)) = true from rfl)]
    simp only [hnet, hr1, hr2]

/-- C4, witness: the amended theorem at `https://lamia.social/users/lamia`,
which normalizes to `("lamia.social/users/lamia", "https://lamia.social")`. -/
theorem c4_witness :
    (("https://".data : List Char) = "http://".data ∨
        ("https://".data : List Char) = "https://".data) ∧
    (("lamia.social".data : List Char) ≠ []) ∧
    (∀ c ∈ ("lamia.social".data : List Char),
      c ≠ '/' ∧ c ≠ '?' ∧ c ≠ '#' ∧ c ≠ ':' ∧ c ≠ '@' ∧ c ≠ '[' ∧ c ≠ ']') ∧
    (("/users/lamia".data : List Char) = [] ∨ ∃ p', ("/users/lamia".data : List Char) = '/' :: p') ∧
    (':' ∉ ("/users/lamia".data : List Char)) ∧
    hasSub ("https://".data) ("lamia.social".data ++ "/users/lamia".data) = false ∧
    hasSub ("http://".data) ("lamia.social".data ++ "/users/lamia".data) = false ∧
    normalizeL ("https://".data ++ ("lamia.social".data ++ "/users/lamia".data)) =
      .ok ("lamia.social".data ++ "/users/lamia".data, "https://".data ++ "lamia.social".data) :=
  ⟨Or.inr rfl, by decide, by decide, Or.inr ⟨"users/lamia".data, rfl⟩, by decide, by decide,
    by decide,
    c4_http_branch ("https://".data) ("lamia.social".data) ("/users/lamia".data)
      (Or.inr rfl) (by decide) (by decide) (Or.inr ⟨"users/lamia".data, rfl⟩) (by decide)
      (by decide) (by decide)⟩

/-- C1 (amended): for an email-style identifier `acct:user@host` whose user
part does not make the whole handle begin with `http` and which contains no
colon, `normalize` strips the `acct:` prefix and returns
`(user@host, https://host)`. -/
theorem c1_acct_email (user host : List Char)
    (hne : user ≠ [])
    (hau : '@' ∉ user) (hah : '@' ∉ host)
    (hcu : ':' ∉ user) (hch : ':' ∉ host)
    (hhttp : isPre ("http".data) (user ++ '@' :: host) = false)
    (hslash : hasSub ("/@".data) (user ++ '@' :: host) = false) :
    normalizeL ("acct:".data ++ (user ++ '@' :: host)) =
      .ok (user ++ '@' :: host, "https://".data ++ host) := by
  have hcol : ':' ∉ user ++ '@' :: host := by
    intro hc
    rcases List.mem_append.mp hc with hc | hc
    · exact hcu hc
    · rcases List.mem_cons.mp hc with hc | hc
      · exact absurd hc (by decide)
      · exact hch hc
  have hport : ':' ∉ removeAll ("://".data) (user ++ '@' :: host) :=
    fun hc => hcol (mem_of_removeAll hc)
  have hat : '@' ∈ user ++ '@' :: host :=
    List.mem_append.mpr (Or.inr (List.mem_cons_self _ _))
  unfold normalizeL
  rw [stripAcct_acct, stripPorts_no_colon hport]
  unfold normCore
  rw [if_neg (by simp [hhttp])]
  rw [if_pos ⟨hat, hslash⟩]
  rw [splitC_append '@' user host hau, splitC_no_sep '@' host hah]
  rfl

/-- C1, witness: the amended theorem at the spec's own scenario,
`normalize("acct:lamia@lamia.social") = ("lamia@lamia.social",
"https://lamia.social")`. -/
theorem c1_witness :
    (("lamia".data : List Char) ≠ [] ∧ '@' ∉ ("lamia".data) ∧ '@' ∉ ("lamia.social".data) ∧
      ':' ∉ ("lamia".data) ∧ ':' ∉ ("lamia.social".data) ∧
      isPre ("http".data) ("lamia".data ++ '@' :: "lamia.social".data) = false ∧
      hasSub ("/@".data) ("lamia".data ++ '@' :: "lamia.social".data) = false) ∧
    normalizeL ("acct:".data ++ ("lamia".data ++ '@' :: "lamia.social".data)) =
      .ok ("lamia".data ++ '@' :: "lamia.social".data, "https://".data ++ "lamia.social".data) :=
  ⟨by decide,
    c1_acct_email ("lamia".data) ("lamia.social".data) (by decide) (by decide) (by decide)
      (by decide) (by decide) (by decide) (by decide)⟩

/-- C5 (amended): for an email-style identifier (containing `@`, without the
substring `/@`, without a colon and not beginning with `http`), the resource
id is the acct:-stripped string itself and the discovery base is `https://`
followed by the segment strictly between the first and second `@` — the
whole remainder after the first `@` only when no second `@` exists. -/
theorem c5_email_first_at (s u v : List Char)
    (ht : stripAcct s = u ++ '@' :: v)
    (hau : '@' ∉ u)
    (hcol : ':' ∉ u ++ '@' :: v)
    (hhttp : isPre ("http".data) (u ++ '@' :: v) = false)
    (hslash : hasSub ("/@".data) (u ++ '@' :: v) = false) :
    normalizeL s =
      .ok (u ++ '@' :: v, "https://".data ++ v.takeWhile (fun c => c != '@')) := by
  have hport : ':' ∉ removeAll ("://".data) (u ++ '@' :: v) :=
    fun hc => hcol (mem_of_removeAll hc)
  have hat : '@' ∈ u ++ '@' :: v :=
    List.mem_append.mpr (Or.inr (List.mem_cons_self _ _))
  unfold normalizeL
  rw [ht, stripPorts_no_colon hport]
  unfold normCore
  rw [if_neg (by simp [hhttp])]
  rw [if_pos ⟨hat, hslash⟩]
  obtain ⟨t, ht2⟩ := splitC_head '@' v
  rw [splitC_append '@' u v hau, ht2]
  rfl

/-- C5, witness: the amended theorem applied to `acct:a@b@c`, an identifier
with two `@` characters: the base is built from `b`, the segment between the
first and second `@`. -/
theorem c5_witness :
    (stripAcct ("acct:a@b@c".data) = "a".data ++ '@' :: "b@c".data ∧
      '@' ∉ ("a".data) ∧ ':' ∉ ("a".data ++ '@' :: "b@c".data) ∧
      isPre ("http".data) ("a".data ++ '@' :: "b@c".data) = false ∧
      hasSub ("/@".data) ("a".data ++ '@' :: "b@c".data) = false) ∧
    normalizeL ("acct:a@b@c".data) =
      .ok ("a".data ++ '@' :: "b@c".data,
        "https://".data ++ ("b@c".data).takeWhile (fun c => c != '@')) :=
  ⟨by decide,
    c5_email_first_at ("acct:a@b@c".data) ("a".data) ("b@c".data) (by decide) (by decide)
      (by decide) (by decide) (by decide)⟩

/-- C7: when the acct-stripped identifier still contains a colon outside a
`://` separator, `normalize` works on the identifier with every `:digits`
port segment dropped, and any discovery base it returns starts with
`https://` and contains no colon-digit port fragment. -/
theorem c7_port_strip (l rid base : List Char)
    (hcol : ':' ∈ removeAll ("://".data) (stripAcct l))
    (hok : normalizeL l = .ok (rid, base)) :
    hasPort (portSub (stripAcct l)) = false ∧
    isPre ("https://".data) base = true ∧ hasPort base = false := by
  refine ⟨hasPort_portSub _, ?_⟩
  unfold normalizeL at hok
  rw [stripPorts_colon hcol] at hok
  have hpi : hasPort (portSub (stripAcct l)) = false := hasPort_portSub _
  unfold normCore at hok
  split at hok
  · cases hnet : netlocE (portSub (stripAcct l)) with
    | error e => rw [hnet] at hok; simp at hok
    | ok nl =>
      rw [hnet] at hok
      simp only [Except.ok.injEq, Prod.mk.injEq] at hok
      obtain ⟨-, hb⟩ := hok
      subst hb
      exact ⟨isPre_append_self _ _, by rw [hasPort_https]; exact hasPort_netlocE hpi hnet⟩
  · split at hok
    · simp only [Except.ok.injEq, Prod.mk.injEq] at hok
      obtain ⟨-, hb⟩ := hok
      subst hb
      refine ⟨isPre_append_self _ _, ?_⟩
      rw [hasPort_https]
      rcases getD_one_cases (splitC '@' (portSub (stripAcct l))) with he | he
      · rw [he]; rfl
      · exact hasPort_splitC '@' hpi _ he
    · cases hnet : netlocE ("https://".data ++ portSub (stripAcct l)) with
      | error e => rw [hnet] at hok; simp at hok
      | ok nl =>
        rw [hnet] at hok
        simp only [Except.ok.injEq, Prod.mk.injEq] at hok
        obtain ⟨-, hb⟩ := hok
        subst hb
        refine ⟨isPre_append_self _ _, ?_⟩
        rw [hasPort_https]
        have hpu : hasPort ("https://".data ++ portSub (stripAcct l)) = false := by
          rw [hasPort_https]; exact hpi
        exact hasPort_netlocE hpu hnet

/-- C7, witness: the theorem applied to `lamia.social:8080`, whose port is
dropped and whose discovery base is the portless `https://lamia.social`. -/
theorem c7_witness :
    (':' ∈ removeAll ("://".data) (stripAcct ("lamia.social:8080".data)) ∧
      normalizeL ("lamia.social:8080".data) =
        .ok ("lamia.social".data, "https://lamia.social".data)) ∧
    (hasPort (portSub (stripAcct ("lamia.social:8080".data))) = false ∧
      isPre ("https://".data) ("https://lamia.social".data) = true ∧
      hasPort ("https://lamia.social".data) = false) :=
  ⟨⟨by decide, rfl⟩,
    c7_port_strip ("lamia.social:8080".data) ("lamia.social".data)
      ("https://lamia.social".data) (by decide) rfl⟩

theorem noApprovedBlocked_setFollow {s : Ledger} {key : ActorId × ActorId}
    {v : Option FollowEdge} (hs : noApprovedBlocked s)
    (hv : ∀ e, v = some e → ¬(e.approved = true ∧ e.blocked = true)) :
    noApprovedBlocked (setFollow s key v) := by
  intro p e hp
  have hp2 : (if p = key then v else s.follows p) = some e := hp
  by_cases hpq : p = key
  · rw [if_pos hpq] at hp2
    exact hv e hp2
  · rw [if_neg hpq] at hp2
    exact hs p e hp2

theorem noApprovedBlocked_applyOp (env : Env) (op : LedgerOp) (s : Ledger)
    (h : noApprovedBlocked s) : noApprovedBlocked (applyOp env op s) := by
  cases op with
  | requestFollow src tgt =>
    show noApprovedBlocked
      (match requestFollow env src tgt s with | .ok s' => s' | .error _ => s)
    unfold requestFollow
    cases hs : s.follows (src, tgt) with
    | some e0 => exact h
    | none =>
      refine noApprovedBlocked_setFollow h ?_
      intro e he
      injection he with he2
      subst he2
      split <;> decide
  | approveFollow src tgt =>
    show noApprovedBlocked
      (match approveFollow src tgt s with | .ok s' => s' | .error _ => s)
    unfold approveFollow
    cases hs : s.follows (src, tgt) with
    | none => exact h
    | some e0 =>
      by_cases he0 : e0 = pendingEdge
      · subst he0
        refine noApprovedBlocked_setFollow h ?_
        intro e he
        injection he with he2
        subst he2
        decide
      · simp only [if_neg he0]
        exact h
  | rejectFollow src tgt =>
    show noApprovedBlocked
      (match rejectFollow src tgt s with | .ok s' => s' | .error _ => s)
    unfold rejectFollow
    cases hs : s.follows (src, tgt) with
    | none => exact h
    | some e0 =>
      by_cases he0 : e0 = pendingEdge
      · subst he0
        exact noApprovedBlocked_setFollow h (fun e he => absurd he (by simp))
      · simp only [if_neg he0]
        exact h
  | unfollow src tgt =>
    show noApprovedBlocked
      (match unfollow src tgt s with | .ok s' => s' | .error _ => s)
    unfold unfollow
    cases hs : s.follows (src, tgt) with
    | none => exact h
    | some e0 =>
      by_cases he0 : e0 = approvedEdge
      · subst he0
        exact noApprovedBlocked_setFollow h (fun e he => absurd he (by simp))
      · simp only [if_neg he0]
        exact h
  | blockViaAccount acct tgt =>
    show noApprovedBlocked (blockViaAccount env acct tgt s)
    intro p e hp
    cases hs : s.follows p with
    | none =>
      simp only [blockViaAccount, hs] at hp
      exact absurd hp (by simp)
    | some e0 =>
      simp only [blockViaAccount, hs] at hp
      split at hp
      · injection hp with h2
        subst h2
        decide
      · injection hp with h2
        subst h2
        exact h p e0 hs

/-- C2: after any sequence of relationship-ledger operations (requestFollow,
approveFollow, rejectFollow, unfollow, blockViaAccount) from the empty
ledger, no follow edge has `approved = true` and `blocked = true` at once. -/
theorem c2_no_approved_and_blocked (env : Env) (ops : List LedgerOp) :
    noApprovedBlocked (runOps env ops emptyLedger) := by
  have hgen : ∀ (l : List LedgerOp) (s : Ledger), noApprovedBlocked s →
      noApprovedBlocked (runOps env l s) := by
    intro l
    induction l with
    | nil => intro s hs; exact hs
    | cons op rest ih =>
      intro s hs
      exact ih _ (noApprovedBlocked_applyOp env op s hs)
  refine hgen ops emptyLedger ?_
  intro p e hp
  simp [emptyLedger] at hp

/-- C3: `blockViaAccount(A, T)` with an `APPROVED` edge from an actor of `A`
to `T` forces that edge to `blocked=true, approved=false`, severs any
reverse edge `(T, actor)` the same way, and records the BlockEdge `(A, T)`
— all effects of the one atomic state transformer `blockViaAccount`. -/
theorem c3_block_severs (env : Env) (acct : AccountId) (tgt a : ActorId) (s : Ledger)
    (howns : env.owns acct a = true)
    (happ : s.follows (a, tgt) = some approvedEdge) :
    (blockViaAccount env acct tgt s).follows (a, tgt) = some blockedEdge ∧
    (∀ e, s.follows (tgt, a) = some e →
      (blockViaAccount env acct tgt s).follows (tgt, a) = some blockedEdge) ∧
    (blockViaAccount env acct tgt s).blocks (acct, tgt) = true := by
  refine ⟨?_, ?_, ?_⟩
  · simp [blockViaAccount, happ, howns]
  · intro e he
    simp [blockViaAccount, he, howns]
  · simp [blockViaAccount]

/-- C3, witness: account 1 owns actor 10, which has an approved follow to
actor 20; `blockViaAccount 1 20` forces the edge to blocked/unapproved and
records the block. -/
theorem c3_witness :
    (sampleEnv.owns 1 10 = true ∧ sampleLedger.follows (10, 20) = some approvedEdge) ∧
    ((blockViaAccount sampleEnv 1 20 sampleLedger).follows (10, 20) = some blockedEdge ∧
      (∀ e, sampleLedger.follows (20, 10) = some e →
        (blockViaAccount sampleEnv 1 20 sampleLedger).follows (20, 10) = some blockedEdge) ∧
      (blockViaAccount sampleEnv 1 20 sampleLedger).blocks (1, 20) = true) :=
  ⟨⟨rfl, rfl⟩, c3_block_severs sampleEnv 1 20 10 sampleLedger rfl rfl⟩

/-- C8: whenever the normalizer succeeds, `finger`'s request is a GET of
`address + "/.well-known/webfinger"` carrying the resource id as the
`resource` query parameter, an `Accept` header that lists
`application/jrd+json` before `application/json`, and the fixed identifying
`User-Agent` `Lamia/<version>`. -/
theorem c8_request_shape (version identifier uid base : List Char)
    (h : normalizeL identifier = .ok (uid, base)) :
    ∃ r, fingerRequest version identifier = .ok r ∧
      r.url = base ++ "/.well-known/webfinger".data ∧
      r.resource = uid ∧
      r.userAgent = "Lamia/".data ++ version ∧
      ∃ pre mid post, r.accept =
        pre ++ "application/jrd+json".data ++ mid ++ "application/json".data ++ post := by
  unfold fingerRequest
  rw [h]
  refine ⟨_, rfl, rfl, rfl, rfl, "q=2, ".data, "; q=1, ".data, [], ?_⟩
  rfl

/-- C8, witness: the request built for `acct:lamia@lamia.social`. -/
theorem c8_witness :
    normalizeL ("acct:lamia@lamia.social".data) =
      .ok ("lamia@lamia.social".data, "https://lamia.social".data) ∧
    ∃ r, fingerRequest ("0.0.1".data) ("acct:lamia@lamia.social".data) = .ok r ∧
      r.url = "https://lamia.social".data ++ "/.well-known/webfinger".data ∧
      r.resource = "lamia@lamia.social".data ∧
      r.userAgent = "Lamia/".data ++ "0.0.1".data ∧
      ∃ pre mid post, r.accept =
        pre ++ "application/jrd+json".data ++ mid ++ "application/json".data ++ post :=
  ⟨rfl, c8_request_shape ("0.0.1".data) ("acct:lamia@lamia.social".data)
    ("lamia@lamia.social".data) ("https://lamia.social".data) rfl⟩

/-- C9 (code bug): on the spec's well-formed descriptor body the response
handling of `finger` does not produce a record at all — line 88 references
the name `json`, which webfinger.py never imports, so a `NameError` is
raised before the body is parsed. -/
theorem c9_response_name_error :
    fingerParse "\x7b\"subject\":\"acct:lamia@lamia.social\",\"links\":[\x7b\"rel\":\"self\",\"href\":\"https://lamia.social/u/lamia\"\x7d]\x7d" =
      .error (.nameError "json") := rfl

/-- C10: each not-found helper of the gino middleware raises
`HTTPException` with status 404 exactly when the underlying `get`/`first`
returns `None`, and otherwise returns the fetched row unchanged. -/
theorem c10_or_404 (α : Type) (rv : Option α) :
    (get_or_404 rv = .error ⟨404⟩ ↔ rv = none) ∧
    (∀ v, get_or_404 rv = .ok v ↔ rv = some v) ∧
    (executor_first_or_404 rv = .error ⟨404⟩ ↔ rv = none) ∧
    (∀ v, executor_first_or_404 rv = .ok v ↔ rv = some v) ∧
    (connection_first_or_404 rv = .error ⟨404⟩ ↔ rv = none) ∧
    (∀ v, connection_first_or_404 rv = .ok v ↔ rv = some v) ∧
    (engine_first_or_404 rv = .error ⟨404⟩ ↔ rv = none) ∧
    (∀ v, engine_first_or_404 rv = .ok v ↔ rv = some v) := by
  cases rv <;>
    simp [get_or_404, executor_first_or_404, connection_first_or_404, engine_first_or_404]

end Lamia
